import Mathlib

set_option maxRecDepth 4000

/- Verification model of the rpnpy expression engine, embedded from
   `expression.py` (tokenize, shunting_yard) and `rpn.py` (RPNCalculator).

   Modeling conventions:
   * Python floats are modeled as exact rationals.  Every concrete value
     appearing in the properties below (small integers, their sums,
     products, quotients and integer powers) is represented exactly by
     IEEE doubles, so rational arithmetic agrees with the source on all
     inputs the theorems touch.  Transcendental math-module functions
     (sin, ln, ...), the float constants math.e / math.pi, non-integral
     powers and random.random() have no exact rational meaning; they are
     collected in a `MathOracle` parameter: fixed but arbitrary functions
     (random.random() is an ambient stream indexed by a position counter).
   * Python exceptions are an `Err`-valued `Except`; the evaluator's
     error carries the state of the (mutated in place) stack at raise
     time, since the caller's list object keeps those mutations.
   * Python lists used as stacks are `List ℚ` with the TOP at the HEAD
     (`stack.append x` is cons, `stack.pop()` takes the head,
     `stack.pop(-2)` takes the second element). -/

/-- Token kinds, mirroring the `type` field of the `Token` namedtuple. -/
inductive TokType where
  | Literal
  | Constant
  | Function
  | Operator
  | LParen
  | RParen
  | Separator
deriving DecidableEq, Repr

/-- Tokens as produced by `tokenize`: `Literal` carries a float (here ℚ),
all other kinds carry the string the tokenizer stored in `value`. -/
inductive Token where
  | literal (val : ℚ)
  | constant (val : String)
  | function (val : String)
  | operator (val : String)
  | lparen (val : String)
  | rparen (val : String)
  | separator (val : String)
deriving DecidableEq, Repr

/-- The `type` field of a token. -/
def Token.type : Token → TokType
  | .literal _ => .Literal
  | .constant _ => .Constant
  | .function _ => .Function
  | .operator _ => .Operator
  | .lparen _ => .LParen
  | .rparen _ => .RParen
  | .separator _ => .Separator

inductive Assoc where
  | L
  | R
deriving DecidableEq, Repr

/-- `Operator = namedtuple("Operator", "prec assoc")`. -/
structure OpSpec where
  prec : ℕ
  assoc : Assoc
deriving DecidableEq, Repr

/-- The `OPS` table of `expression.py`; `none` models a `KeyError` lookup. -/
def OPS (s : String) : Option OpSpec :=
  if s = "+" then some ⟨2, Assoc.L⟩
  else if s = "-" then some ⟨2, Assoc.L⟩
  else if s = "/" then some ⟨3, Assoc.L⟩
  else if s = "*" then some ⟨3, Assoc.L⟩
  else if s = "^" then some ⟨4, Assoc.R⟩
  else none

/-- Python exception kinds the modeled code can raise. -/
inductive Err where
  | synErr (msg : String)
  | keyErr
  | idxErr
  | zeroDivErr
  | valErr (msg : String)
  | warnErr
deriving DecidableEq, Repr

/-- Value of a digit string. -/
def digitsVal (ds : List Char) : ℕ :=
  ds.foldl (fun a c => 10 * a + (c.toNat - 48)) 0

/-- Python `float(text)` on an unsigned text drawn from digits and dots:
digits, then optionally a dot and more digits, at least one digit in all. -/
def parseUnsigned (cs : List Char) : Option ℚ :=
  let intDigits := cs.takeWhile Char.isDigit
  let rest := cs.dropWhile Char.isDigit
  match rest with
  | [] => if intDigits = [] then none else some ((digitsVal intDigits : ℕ) : ℚ)
  | '.' :: frac =>
    if frac.all Char.isDigit ∧ ¬(intDigits = [] ∧ frac = []) then
      some (((digitsVal intDigits : ℕ) : ℚ) + ((digitsVal frac : ℕ) : ℚ) / (10 : ℚ) ^ frac.length)
    else none
  | _ => none

/-- Python `float(text)` on the tokenizer's number buffer (an optional
leading minus sign, then digits and dots); `none` is a `ValueError`. -/
def parseFloat (cs : List Char) : Option ℚ :=
  match cs with
  | '-' :: rest => (parseUnsigned rest).map (fun q => -q)
  | _ => parseUnsigned cs

/-- The nested `empty_buffers` of `tokenize`: flush the letter buffer
(constants `e`/`pi`, otherwise a function name), then the number buffer.
Faithful to the source, a buffer holding exactly `-` appends the
subtraction operator AND still falls through to `float('-')`, which
raises `ValueError` (the `else` is missing in the source). -/
def emptyBuffers (lbuf nbuf : List Char) (toks : List Token) : Except Err (List Token) :=
  let toks :=
    if lbuf ≠ [] then
      let t := String.mk lbuf
      if t = "e" ∨ t = "pi" then toks ++ [Token.constant t]
      else toks ++ [Token.function t]
    else toks
  if nbuf ≠ [] then
    let toks := if nbuf = ['-'] then toks ++ [Token.operator "-"] else toks
    match parseFloat nbuf with
    | some q => .ok (toks ++ [Token.literal q])
    | none => .error (Err.valErr "could not convert string to float")
  else .ok toks

/-- Is the character one of the `OPS` operator symbols? -/
def opChar (c : Char) : Bool :=
  c = '+' || c = '-' || c = '/' || c = '*' || c = '^'

/-- The character scan of `tokenize`, carrying the letter buffer, number
buffer and the accumulated token list. -/
def tokenizeGo : List Char → List Char → List Char → List Token → Except Err (List Token)
  | [], lbuf, nbuf, toks => emptyBuffers lbuf nbuf toks
  | c :: rest, lbuf, nbuf, toks =>
    if c.isDigit ∨ c = '-' ∨ c = '.' then
      tokenizeGo rest lbuf (nbuf ++ [c]) toks
    else if c.isAlpha then
      if nbuf ≠ [] then
        match emptyBuffers lbuf nbuf toks with
        | .error e => .error e
        | .ok toks' => tokenizeGo rest [c] [] toks'
      else tokenizeGo rest (lbuf ++ [c]) nbuf toks
    else if opChar c then
      match emptyBuffers lbuf nbuf toks with
      | .error e => .error e
      | .ok toks' => tokenizeGo rest [] [] (toks' ++ [Token.operator (String.mk [c])])
    else if c = '(' ∨ c = '[' then
      match emptyBuffers lbuf nbuf toks with
      | .error e => .error e
      | .ok toks' => tokenizeGo rest [] [] (toks' ++ [Token.lparen (String.mk [c])])
    else if c = ')' ∨ c = ']' then
      match emptyBuffers lbuf nbuf toks with
      | .error e => .error e
      | .ok toks' => tokenizeGo rest [] [] (toks' ++ [Token.rparen (String.mk [c])])
    else if c = ',' then
      match emptyBuffers lbuf nbuf toks with
      | .error e => .error e
      | .ok toks' => tokenizeGo rest [] [] (toks' ++ [Token.separator (String.mk [c])])
    else if c.isWhitespace then
      match emptyBuffers lbuf nbuf toks with
      | .error e => .error e
      | .ok toks' => tokenizeGo rest [] [] toks'
    else .error (Err.synErr ("unexpected " ++ String.mk [c]))

/-- `tokenize` of `expression.py`. -/
def tokenize (s : String) : Except Err (List Token) :=
  tokenizeGo s.data [] [] []

/-- The `OPS[token.value]` dictionary lookup applied to a token on the
operator stack; a float key or an unknown string key is a `KeyError`. -/
def opsOf : Token → Option OpSpec
  | .literal _ => none
  | .constant v => OPS v
  | .function v => OPS v
  | .operator v => OPS v
  | .lparen v => OPS v
  | .rparen v => OPS v
  | .separator v => OPS v

/-- The second disjunct of the while condition in the `Operator` branch of
`shunting_yard`: `OPS[tok].assoc == 'R' and OPS[tok].prec < OPS[stack[-1].value].prec`.
Because of Python's `and`/`or` precedence this disjunct is NOT guarded by
`stack and stack[-1].type == 'Operator'`, so for a right-associative token
it reads `stack[-1]` (IndexError on an empty stack) and looks its value up
in `OPS` (KeyError when the top is, e.g., a left bracket). -/
def sycondR (op : OpSpec) (stack : List Token) : Except Err Bool :=
  if op.assoc = Assoc.R then
    match stack with
    | [] => .error Err.idxErr
    | top :: _ =>
      match opsOf top with
      | none => .error Err.keyErr
      | some topOp => .ok (decide (op.prec < topOp.prec))
  else .ok false

/-- The whole while condition of the `Operator` branch of `shunting_yard`,
with Python's evaluation order: `(stack and stack[-1].type == 'Operator'
and (assoc == 'L' and prec <= top.prec)) or (assoc == 'R' and prec < top.prec)`. -/
def sycond (tokName : String) (stack : List Token) : Except Err Bool :=
  match OPS tokName with
  | none => .error Err.keyErr
  | some op =>
    match stack with
    | [] => sycondR op []
    | top :: rest =>
      if top.type = TokType.Operator then
        if op.assoc = Assoc.L then
          match opsOf top with
          | none => .error Err.keyErr
          | some topOp =>
            if op.prec ≤ topOp.prec then .ok true
            else sycondR op (top :: rest)
        else sycondR op (top :: rest)
      else sycondR op (top :: rest)

/-- The while loop of the `Operator` branch: pop operators from the stack
into the output while the condition holds. -/
def popOps (tokName : String) : List Token → List Token → Except Err (List Token × List Token)
  | [], output =>
    match sycond tokName [] with
    | .error e => .error e
    | .ok _ => .ok ([], output)
  | top :: rest, output =>
    match sycond tokName (top :: rest) with
    | .error e => .error e
    | .ok false => .ok (top :: rest, output)
    | .ok true => popOps tokName rest (output ++ [top])

/-- The `while stack and stack[-1].type != 'LParen'` loops of the
`Separator` and `RParen` branches: pop into the output until a left
bracket (or an empty stack) is reached; returns (stack, output). -/
def popUntilLParen : List Token → List Token → List Token × List Token
  | [], output => ([], output)
  | top :: rest, output =>
    if top.type = TokType.LParen then (top :: rest, output)
    else popUntilLParen rest (output ++ [top])

/-- The final drain of `shunting_yard`: pop the remaining operator stack
into the output, failing on any leftover bracket. -/
def syDrain : List Token → List Token → Except Err (List Token)
  | [], output => .ok output
  | top :: rest, output =>
    if top.type = TokType.LParen ∨ top.type = TokType.RParen then
      .error (Err.synErr "mismatched parentheses")
    else syDrain rest (output ++ [top])

/-- The token loop of `shunting_yard` (arguments: input, output, stack).
In the `RParen` branch, faithful to the source, an empty stack after the
pop loop hits `stack[-1]` and raises IndexError; the
`else: raise SyntaxError('mismatched parentheses')` of that branch is kept
even though the pop loop makes it unreachable. -/
def syGo : List Token → List Token → List Token → Except Err (List Token)
  | [], output, stack => syDrain stack output
  | tok :: rest, output, stack =>
    match tok with
    | .literal _ => syGo rest (output ++ [tok]) stack
    | .constant _ => syGo rest (output ++ [tok]) stack
    | .function _ => syGo rest output (tok :: stack)
    | .separator _ =>
      match popUntilLParen stack output with
      | ([], _) => .error (Err.synErr "mismatched parentheses")
      | (top :: stack', output') => syGo rest output' (top :: stack')
    | .operator name =>
      match popOps name stack output with
      | .error e => .error e
      | .ok (stack', output') => syGo rest output' (tok :: stack')
    | .lparen _ => syGo rest output (tok :: stack)
    | .rparen _ =>
      match popUntilLParen stack output with
      | ([], _) => .error Err.idxErr
      | (top :: stack', output') =>
        if top.type = TokType.LParen then
          match stack' with
          | [] => syGo rest output' []
          | f :: stack'' =>
            if f.type = TokType.Function then syGo rest (output' ++ [f]) stack''
            else syGo rest output' stack'
        else .error (Err.synErr "mismatched parentheses")

/-- `shunting_yard` of `expression.py`. -/
def shunting_yard (expr : List Token) : Except Err (List Token) :=
  syGo expr [] []

/-- Oracle for the parts of the evaluator that have no exact rational
meaning: the math-module transcendental functions, the float constants
`math.e` / `math.pi`, non-integral powers, and the ambient stream behind
`random.random()` (indexed by how many draws happened so far).  Partial
functions return `none` on a math domain error (`ValueError`).  No claim
below depends on the numeric values these produce. -/
structure MathOracle where
  e : ℚ
  pi : ℚ
  rpow : ℚ → ℚ → ℚ
  ln : ℚ → Option ℚ
  log : ℚ → ℚ → Option ℚ
  log2 : ℚ → Option ℚ
  log10 : ℚ → Option ℚ
  rand : ℕ → ℚ
  sqrt : ℚ → Option ℚ
  exp : ℚ → ℚ
  sin : ℚ → ℚ
  cos : ℚ → ℚ
  tan : ℚ → ℚ
  sinh : ℚ → ℚ
  cosh : ℚ → ℚ
  tanh : ℚ → ℚ
  arcsin : ℚ → Option ℚ
  arccos : ℚ → Option ℚ
  arctan : ℚ → ℚ
  arcsinh : ℚ → ℚ
  arccosh : ℚ → Option ℚ
  arctanh : ℚ → Option ℚ

/-- State of one `RPNCalculator` evaluation: the value stack (head = top),
the `ans` register, and the position in the ambient random stream. -/
structure EvalSt where
  stack : List ℚ
  ans : ℚ
  rngPos : ℕ
deriving DecidableEq, Repr

/-- The class attribute `ans = 0`: a fresh `RPNCalculator` starts with 0. -/
def ansInit : ℚ := 0

/-- A fresh calculator instance with a fresh empty stack. -/
def freshCalc : EvalSt := ⟨[], ansInit, 0⟩

/-- `stacksum` (the `++` handler): pop every element, summing. -/
def stacksum (s : List ℚ) : ℚ :=
  s.foldl (fun acc x => acc + x) 0

/-- `stackproduct` (the `**` handler): pop every element, multiplying. -/
def stackproduct (s : List ℚ) : ℚ :=
  s.foldl (fun acc x => acc * x) 1

/-- Python float `%`: result has the divisor's sign, `a - b * floor(a / b)`. -/
def pymod (a b : ℚ) : ℚ :=
  a - b * ((⌊a / b⌋ : ℤ) : ℚ)

/-- Python float `**`: exact for an integral exponent (`0.0 ** negative`
raises ZeroDivisionError); a non-integral exponent is oracle-modeled. -/
def qpowRes (M : MathOracle) (a b : ℚ) : Except Err ℚ :=
  if b.den = 1 then
    if a = 0 ∧ b.num < 0 then .error Err.zeroDivErr
    else .ok (a ^ b.num)
  else .ok (M.rpow a b)

/-- `math.factorial` on a float: exact for a nonnegative integral value,
otherwise a `ValueError`. -/
def pyfactorial (x : ℚ) : Except Err ℚ :=
  if x.den = 1 ∧ 0 ≤ x.num then .ok ((Nat.factorial x.num.toNat : ℕ) : ℚ)
  else .error (Err.valErr "factorial domain")

/-- Turn a math-domain oracle answer into a result (`none` = `ValueError`). -/
def domRes : Option ℚ → Except Err ℚ
  | some v => .ok v
  | none => .error (Err.valErr "math domain error")

/-- A handler body of shape `f(stack.pop())`: an empty stack raises
IndexError before any mutation; otherwise the top is popped and `f`
applied (which may itself raise). -/
def popUnary (s : List ℚ) (f : ℚ → Except Err ℚ) : Except Err ℚ × List ℚ :=
  match s with
  | x :: rest => (f x, rest)
  | [] => (.error Err.idxErr, [])

/-- The `operators` registry of `RPNCalculator.operator`, split into the
two handlers that read calculator state -- `rand` (draws the next ambient
random value) and `ans` (reads the register), listed first below -- and
the remaining handlers, which are pure functions of the stack
(`applyOpPure`).  The dictionary lookup itself is order-independent, so
this split preserves the registry mapping exactly. -/
def applyOpPure (M : MathOracle) (name : String) (s : List ℚ) :
    Option (Except Err ℚ × List ℚ) :=
  if name = "++" then some (.ok (stacksum s), [])
  else if name = "**" then some (.ok (stackproduct s), [])
  else if name = "+" then
    match s with
    | b :: a :: rest => some (.ok (a + b), rest)
    | _ => some (.error Err.idxErr, s)
  else if name = "-" then
    match s with
    | b :: a :: rest => some (.ok (a - b), rest)
    | _ => some (.error Err.idxErr, s)
  else if name = "*" then
    match s with
    | b :: a :: rest => some (.ok (a * b), rest)
    | _ => some (.error Err.idxErr, s)
  else if name = "/" then
    match s with
    | b :: a :: rest => some ((if b = 0 then .error Err.zeroDivErr else .ok (a / b)), rest)
    | _ => some (.error Err.idxErr, s)
  else if name = "%" then
    match s with
    | b :: a :: rest => some ((if b = 0 then .error Err.zeroDivErr else .ok (pymod a b)), rest)
    | _ => some (.error Err.idxErr, s)
  else if name = "^" then
    match s with
    | b :: a :: rest => some (qpowRes M a b, rest)
    | _ => some (.error Err.idxErr, s)
  else if name = "!" then some (popUnary s pyfactorial)
  else if name = "ln" then some (popUnary s (fun x => domRes (M.ln x)))
  else if name = "log" then
    match s with
    | b :: a :: rest => some (domRes (M.log a b), rest)
    | _ => some (.error Err.idxErr, s)
  else if name = "log2" then some (popUnary s (fun x => domRes (M.log2 x)))
  else if name = "log10" then some (popUnary s (fun x => domRes (M.log10 x)))
  else if name = "sqrt" then some (popUnary s (fun x => domRes (M.sqrt x)))
  else if name = "exp" then some (popUnary s (fun x => .ok (M.exp x)))
  else if name = "sin" then some (popUnary s (fun x => .ok (M.sin x)))
  else if name = "cos" then some (popUnary s (fun x => .ok (M.cos x)))
  else if name = "tan" then some (popUnary s (fun x => .ok (M.tan x)))
  else if name = "sinh" then some (popUnary s (fun x => .ok (M.sinh x)))
  else if name = "cosh" then some (popUnary s (fun x => .ok (M.cosh x)))
  else if name = "tanh" then some (popUnary s (fun x => .ok (M.tanh x)))
  else if name = "arcsin" then some (popUnary s (fun x => domRes (M.arcsin x)))
  else if name = "arccos" then some (popUnary s (fun x => domRes (M.arccos x)))
  else if name = "arctan" then some (popUnary s (fun x => .ok (M.arctan x)))
  else if name = "arcsinh" then some (popUnary s (fun x => .ok (M.arcsinh x)))
  else if name = "arccosh" then some (popUnary s (fun x => domRes (M.arccosh x)))
  else if name = "arctanh" then some (popUnary s (fun x => domRes (M.arctanh x)))
  else if name = "max" then
    match s with
    | b :: a :: rest => some (.ok (max a b), rest)
    | _ => some (.error Err.idxErr, [])
  else if name = "min" then
    match s with
    | b :: a :: rest => some (.ok (min a b), rest)
    | _ => some (.error Err.idxErr, [])
  else if name = "abs" then some (popUnary s (fun x => .ok |x|))
  else none

/-- The full registry: `none` models `RPNCalculator.operator` returning
`False` for an unknown name; `some (res, stack', rngPos')` gives the
handler's result (or the exception it raised) together with the stack as
mutated by the pops that already happened, and the new random position.
Binary `pop(-2) OP pop()` handlers pop nothing when the stack is shorter
than two (`pop(-2)` checks its index first); `max`/`min` (`pop(), pop()`)
leave an emptied stack when they fail on one element, since the first
`pop()` succeeded. -/
def applyOp (M : MathOracle) (ansv : ℚ) (p : ℕ) (name : String) (s : List ℚ) :
    Option (Except Err ℚ × List ℚ × ℕ) :=
  if name = "rand" then some (.ok (M.rand p), s, p + 1)
  else if name = "ans" then some (.ok ansv, s, p)
  else (applyOpPure M name s).map (fun r => (r.1, r.2, p))

/-- The `Operator`/`Function` arm of `RPNCalculator.eval`: look the name
up (`SyntaxError` when unknown), run the handler, store its result in
`ans` and push it; a handler exception propagates before the `ans`
assignment, with the stack keeping the handler's pops. -/
def evalOpTok (M : MathOracle) (name : String) (st : EvalSt) : Except (Err × EvalSt) EvalSt :=
  match applyOp M st.ans st.rngPos name st.stack with
  | none => .error (Err.synErr ("unknown operator/function: " ++ name), st)
  | some (.ok v, s', p') => .ok ⟨v :: s', v, p'⟩
  | some (.error e, s', p') => .error (e, ⟨s', st.ans, p'⟩)

/-- One token of the loop of `RPNCalculator.eval`. -/
def evalStep (M : MathOracle) (tok : Token) (st : EvalSt) : Except (Err × EvalSt) EvalSt :=
  match tok with
  | .literal q => .ok ⟨q :: st.stack, st.ans, st.rngPos⟩
  | .constant v =>
    if v = "e" then .ok ⟨M.e :: st.stack, st.ans, st.rngPos⟩
    else if v = "pi" then .ok ⟨M.pi :: st.stack, st.ans, st.rngPos⟩
    else .ok st
  | .operator name => evalOpTok M name st
  | .function name => evalOpTok M name st
  | .separator _ => .ok st
  | .lparen v => .error (Err.synErr ("unexpected LParen: " ++ v), st)
  | .rparen v => .error (Err.synErr ("unexpected RParen: " ++ v), st)

/-- The token loop of `RPNCalculator.eval`. -/
def evalGo (M : MathOracle) : List Token → EvalSt → Except (Err × EvalSt) EvalSt
  | [], st => .ok st
  | tok :: rest, st =>
    match evalStep M tok st with
    | .ok st' => evalGo M rest st'
    | .error e => .error e

/-- `RPNCalculator.eval`: run the token loop, then
`if len(stack) != 1: raise Warning(...)`, else return the stack. -/
def eval (M : MathOracle) (expr : List Token) (st : EvalSt) : Except (Err × EvalSt) EvalSt :=
  match evalGo M expr st with
  | .error e => .error e
  | .ok st' => if st'.stack.length ≠ 1 then .error (Err.warnErr, st') else .ok st'

/-- A trivial oracle instantiation, used to state concrete counterexamples
and witnesses on inputs whose evaluation never consults the oracle. -/
def M0 : MathOracle :=
  ⟨0, 0, fun _ _ => 0, fun _ => none, fun _ _ => none, fun _ => none, fun _ => none,
   fun _ => 0, fun _ => none, fun _ => 0, fun _ => 0, fun _ => 0, fun _ => 0,
   fun _ => 0, fun _ => 0, fun _ => 0, fun _ => none, fun _ => none, fun _ => 0,
   fun _ => 0, fun _ => none, fun _ => none⟩

/-- Does a token invoke neither the `ans` register nor `random.random()`? -/
def noAR : Token → Bool
  | .operator n => !(n = "ans" : Bool) && !(n = "rand" : Bool)
  | .function n => !(n = "ans" : Bool) && !(n = "rand" : Bool)
  | _ => true

/-- A token sequence that never invokes `ans` or `rand`. -/
def noAnsRand (e : List Token) : Bool := e.all noAR

/-- Two evaluation outcomes agree on everything the caller's stack shows:
same success/failure, same exception kind, same final stack contents. -/
def sameStacks : Except (Err × EvalSt) EvalSt → Except (Err × EvalSt) EvalSt → Prop
  | .ok s1, .ok s2 => s1.stack = s2.stack
  | .error (e1, s1), .error (e2, s2) => e1 = e2 ∧ s1.stack = s2.stack
  | _, _ => False

/-- Token kinds allowed in `shunting_yard` output: everything except
brackets and separators. -/
def outOkT (ty : TokType) : Prop :=
  ty ≠ TokType.LParen ∧ ty ≠ TokType.RParen ∧ ty ≠ TokType.Separator

/-- Token kinds that can sit on the `shunting_yard` operator stack. -/
def stackOkT (ty : TokType) : Prop :=
  ty = TokType.Operator ∨ ty = TokType.Function ∨ ty = TokType.LParen

/-- Claim C1 (code behavior at the claimed input): on `"2^3^2"` the claim
promises 512.0 via right-associativity, but `shunting_yard` raises
IndexError: Python's `and`/`or` precedence leaves the right-associative
disjunct of the while condition unguarded, so the first `^` (processed
with an empty operator stack) evaluates `stack[-1]` on an empty list. -/
theorem claim_C1 :
    tokenize "2^3^2" =
      .ok [Token.literal 2, Token.operator "^", Token.literal 3,
           Token.operator "^", Token.literal 2]
    ∧ shunting_yard [Token.literal 2, Token.operator "^", Token.literal 3,
           Token.operator "^", Token.literal 2] = .error Err.idxErr := by
  exact ⟨rfl, rfl⟩

/-- Claim C2 (code behavior at the claimed input): tokenizing `"1 - 2"`
does not yield `Literal 1, Operator -, Literal 2`; when the number buffer
holds a lone `-`, the missing `else` in `empty_buffers` makes the code
emit the subtraction operator and then still call `float('-')`, which
raises ValueError, so the whole call fails. -/
theorem claim_C2 :
    tokenize "1 - 2" = .error (Err.valErr "could not convert string to float") := by
  exact rfl

/-- Claim C4 (code behavior at the claimed inputs): `"(3+4"` does fail
with `SyntaxError('mismatched parentheses')`, but `"3+4)"` raises
IndexError instead: with an emptied operator stack the `RParen` branch
evaluates `stack[-1]`, and its `else: raise SyntaxError` is unreachable
dead code. -/
theorem claim_C4 :
    tokenize "(3+4" =
      .ok [Token.lparen "(", Token.literal 3, Token.operator "+", Token.literal 4]
    ∧ shunting_yard [Token.lparen "(", Token.literal 3, Token.operator "+", Token.literal 4] =
      .error (Err.synErr "mismatched parentheses")
    ∧ tokenize "3+4)" =
      .ok [Token.literal 3, Token.operator "+", Token.literal 4, Token.rparen ")"]
    ∧ shunting_yard [Token.literal 3, Token.operator "+", Token.literal 4, Token.rparen ")"] =
      .error Err.idxErr := by
  exact ⟨rfl, rfl, rfl, rfl⟩

/-- Claim C6: `"3+4*2"` tokenizes and reorders to the postfix sequence
`3 4 2 * +` (multiplication binds tighter than addition), and evaluating
that sequence on a fresh stack yields 11.0 (for every oracle: no
math-module function is invoked). -/
theorem claim_C6 :
    tokenize "3+4*2" =
      .ok [Token.literal 3, Token.operator "+", Token.literal 4,
           Token.operator "*", Token.literal 2]
    ∧ shunting_yard [Token.literal 3, Token.operator "+", Token.literal 4,
           Token.operator "*", Token.literal 2] =
      .ok [Token.literal 3, Token.literal 4, Token.literal 2,
           Token.operator "*", Token.operator "+"]
    ∧ ∀ M : MathOracle,
        eval M [Token.literal 3, Token.literal 4, Token.literal 2,
                Token.operator "*", Token.operator "+"] freshCalc =
          .ok ⟨[11], 11, 0⟩ := by
  refine ⟨rfl, rfl, fun M => ?_⟩
  have h : eval M [Token.literal 3, Token.literal 4, Token.literal 2,
      Token.operator "*", Token.operator "+"] freshCalc =
      .ok ⟨[3 + 4 * 2], 3 + 4 * 2, 0⟩ := rfl
  rw [h]
  norm_num

/-- Claim C3 counterexample: `eval` does not return normally on a final
stack of size other than one; on the two-literal sequence `1 2` with a
fresh stack it raises `Warning` (the token loop itself succeeded, leaving
both values on the stack). -/
theorem claim_C3_cex :
    eval M0 [Token.literal 1, Token.literal 2] freshCalc =
      .error (Err.warnErr, ⟨[2, 1], 0, 0⟩) := by
  exact rfl

/-- Claim C3 as amended: after the token loop succeeds, `eval` returns the
resulting stack exactly when it holds one value; a final stack of any
other size raises a `Warning` exception carrying the fully updated state
(the interactive caller catches and silently ignores it). -/
theorem claim_C3_amended (M : MathOracle) (expr : List Token) (st st' : EvalSt)
    (h : evalGo M expr st = .ok st') :
    (eval M expr st = .ok st' ↔ st'.stack.length = 1)
    ∧ (st'.stack.length ≠ 1 → eval M expr st = .error (Err.warnErr, st')) := by
  unfold eval
  rw [h]
  by_cases hl : st'.stack.length = 1
  · simp [hl]
  · simp [hl]

/-- Claim C3 witness: the amended theorem applied to the one-literal
sequence `5`, whose final stack is the singleton it pushed. -/
theorem claim_C3_witness :
    eval M0 [Token.literal 5] freshCalc = .ok ⟨[5], 0, 0⟩ :=
  (claim_C3_amended M0 [Token.literal 5] freshCalc ⟨[5], 0, 0⟩ rfl).1.mpr rfl

/-- Claim C5 counterexample: evaluation is not atomic on error.  Running
the postfix of `"3 1/0"` against the supplied stack `[7]` fails with
ZeroDivisionError but leaves the stack as `[3, 7]` (top first), not `[7]`:
the pushed `3` survives because only the division's own operands were
popped before the raise. -/
theorem claim_C5_cex :
    eval M0 [Token.literal 3, Token.literal 1, Token.literal 0, Token.operator "/"]
        ⟨[7], 0, 0⟩ =
      .error (Err.zeroDivErr, ⟨[3, 7], 0, 0⟩)
    ∧ ([3, 7] : List ℚ) ≠ [7] := by
  exact ⟨rfl, by decide⟩

/-- Claim C5 as amended: on failure the supplied stack keeps whatever
pushes and pops completed before the raise (evaluation is not atomic in
general); for the specific input `"1/0"` the division handler pops both
operands it had just pushed before failing, so that input does leave any
supplied stack with exactly its pre-call contents, with a
ZeroDivisionError propagated and the register and random position
untouched. -/
theorem claim_C5_amended :
    tokenize "1/0" = .ok [Token.literal 1, Token.operator "/", Token.literal 0]
    ∧ shunting_yard [Token.literal 1, Token.operator "/", Token.literal 0] =
      .ok [Token.literal 1, Token.literal 0, Token.operator "/"]
    ∧ ∀ (M : MathOracle) (s : List ℚ) (a : ℚ) (p : ℕ),
        eval M [Token.literal 1, Token.literal 0, Token.operator "/"] ⟨s, a, p⟩ =
          .error (Err.zeroDivErr, ⟨s, a, p⟩) := by
  exact ⟨rfl, rfl, fun M s a p => rfl⟩

/-- Claim C9 counterexample: re-evaluating the same postfix sequence with
the same calculator instance against fresh stacks need not be idempotent.
The sequence `ans 1 +` evaluated on a fresh instance yields `[1]` and sets
the register to 1; evaluated again (same instance, fresh stack) it yields
`[2]`. -/
theorem claim_C9_cex :
    eval M0 [Token.operator "ans", Token.literal 1, Token.operator "+"] ⟨[], 0, 0⟩ =
      .ok ⟨[1], 1, 0⟩
    ∧ eval M0 [Token.operator "ans", Token.literal 1, Token.operator "+"] ⟨[], 1, 0⟩ =
      .ok ⟨[2], 2, 0⟩
    ∧ ([1] : List ℚ) ≠ [2] := by
  refine ⟨?_, ?_, by norm_num⟩
  · have h : eval M0 [Token.operator "ans", Token.literal 1, Token.operator "+"] ⟨[], 0, 0⟩ =
        .ok ⟨[0 + 1], 0 + 1, 0⟩ := rfl
    rw [h]
    norm_num
  · have h : eval M0 [Token.operator "ans", Token.literal 1, Token.operator "+"] ⟨[], 1, 0⟩ =
        .ok ⟨[1 + 1], 1 + 1, 0⟩ := rfl
    rw [h]
    norm_num

/-- Claim C7: the `++` and `**` handlers are variadic: on every stack they
drain every value present, leaving the stack empty, and return the sum,
respectively the product, of the drained values; in particular `++` on a
stack holding exactly 1, 2, 3 (pushed in that order, so top-first the
list is `[3, 2, 1]`) yields 6, and `**` on 2, 3, 4 yields 24. -/
theorem claim_C7 (M : MathOracle) (a : ℚ) (p : ℕ) (s : List ℚ) :
    applyOp M a p "++" s = some (.ok s.sum, [], p)
    ∧ applyOp M a p "**" s = some (.ok s.prod, [], p)
    ∧ applyOp M a p "++" [3, 2, 1] = some (.ok 6, [], p)
    ∧ applyOp M a p "**" [4, 3, 2] = some (.ok 24, [], p) := by
  refine ⟨?_, ?_, ?_, ?_⟩
  · have h : applyOp M a p "++" s = some (.ok (stacksum s), [], p) := rfl
    have h1 : stacksum s = s.sum := by
      rw [List.sum_eq_foldl]
      rfl
    rw [h, h1]
  · have h : applyOp M a p "**" s = some (.ok (stackproduct s), [], p) := rfl
    have h1 : stackproduct s = s.prod := by
      rw [List.prod_eq_foldl]
      rfl
    rw [h, h1]
  · have h : applyOp M a p "++" [3, 2, 1] = some (.ok (0 + 3 + 2 + 1), [], p) := rfl
    rw [h]
    norm_num
  · have h : applyOp M a p "**" [4, 3, 2] = some (.ok (1 * 4 * 3 * 2), [], p) := rfl
    rw [h]
    norm_num

/-- Claim C8: the answer register starts at 0 (the `ans = 0` class
attribute); whenever an Operator/Function application succeeds during
eval, the new state's register equals that application's result (which is
also pushed on the stack); and the `ans` handler is nullary: it returns
the register's current value, pops nothing, and an `ans` step pushes the
prior result whatever the intervening stack contents are. -/
theorem claim_C8 (M : MathOracle) :
    freshCalc.ans = 0
    ∧ (∀ (name : String) (st : EvalSt) (v : ℚ) (s' : List ℚ) (p' : ℕ),
        applyOp M st.ans st.rngPos name st.stack = some (.ok v, s', p') →
          evalStep M (.operator name) st = .ok ⟨v :: s', v, p'⟩
          ∧ evalStep M (.function name) st = .ok ⟨v :: s', v, p'⟩)
    ∧ (∀ (a : ℚ) (p : ℕ) (s : List ℚ), applyOp M a p "ans" s = some (.ok a, s, p))
    ∧ (∀ st : EvalSt, evalStep M (.operator "ans") st =
        .ok ⟨st.ans :: st.stack, st.ans, st.rngPos⟩) := by
  refine ⟨rfl, ?_, ?_, ?_⟩
  · intro name st v s' p' h
    constructor
    · show evalOpTok M name st = .ok ⟨v :: s', v, p'⟩
      unfold evalOpTok
      rw [h]
    · show evalOpTok M name st = .ok ⟨v :: s', v, p'⟩
      unfold evalOpTok
      rw [h]
  · intro a p s
    rfl
  · intro st
    rfl

/-- Claim C8 witness: a successful `*` application on the stack `[4, 3]`
(top first) with register 9 pushes 12 and overwrites the register with 12. -/
theorem claim_C8_witness :
    evalStep M0 (.operator "*") ⟨[4, 3], 9, 2⟩ = .ok ⟨[12], 12, 2⟩ := by
  have h := ((claim_C8 M0).2.1 "*" ⟨[4, 3], 9, 2⟩ (3 * 4) [] 2 rfl).1
  rw [h]
  norm_num

/-- Every handler other than `ans` and `rand` reads neither the register
nor the random position: its result and mutated stack agree for any
register/position values, and it reports back the caller's position. -/
theorem applyOp_indep (M : MathOracle) (a a' : ℚ) (p p' : ℕ) (name : String) (s : List ℚ)
    (h1 : name ≠ "ans") (h2 : name ≠ "rand") :
    applyOp M a p name s = (applyOp M a' p' name s).map (fun r => (r.1, r.2.1, p)) := by
  unfold applyOp
  rw [if_neg h2, if_neg h1, if_neg h2, if_neg h1]
  cases applyOpPure M name s with
  | none => rfl
  | some r =>
    obtain ⟨res, s2⟩ := r
    rfl

/-- One evaluation step on a token that invokes neither `ans` nor `rand`
relates two states with equal stacks: same outcome, same error kind, same
resulting stack. -/
theorem evalStep_indep (M : MathOracle) (t : Token) (st1 st2 : EvalSt)
    (ht : noAR t = true) (h : st1.stack = st2.stack) :
    sameStacks (evalStep M t st1) (evalStep M t st2) := by
  cases t with
  | literal q => simp [evalStep, sameStacks, h]
  | constant v =>
    by_cases he : v = "e"
    · simp [evalStep, sameStacks, he, h]
    · by_cases hp : v = "pi"
      · simp [evalStep, sameStacks, he, hp, h]
      · simp [evalStep, sameStacks, he, hp, h]
  | separator v => simp [evalStep, sameStacks, h]
  | lparen v => simp [evalStep, sameStacks, h]
  | rparen v => simp [evalStep, sameStacks, h]
  | operator n =>
    simp only [noAR, Bool.and_eq_true, Bool.not_eq_true', decide_eq_false_iff_not] at ht
    show sameStacks (evalOpTok M n st1) (evalOpTok M n st2)
    unfold evalOpTok
    rw [h, applyOp_indep M st1.ans st2.ans st1.rngPos st2.rngPos n st2.stack ht.1 ht.2]
    cases happ : applyOp M st2.ans st2.rngPos n st2.stack with
    | none => simpa [sameStacks] using h
    | some r =>
      obtain ⟨res, s', p'⟩ := r
      cases res with
      | ok v => simp [sameStacks]
      | error e => simp [sameStacks]
  | function n =>
    simp only [noAR, Bool.and_eq_true, Bool.not_eq_true', decide_eq_false_iff_not] at ht
    show sameStacks (evalOpTok M n st1) (evalOpTok M n st2)
    unfold evalOpTok
    rw [h, applyOp_indep M st1.ans st2.ans st1.rngPos st2.rngPos n st2.stack ht.1 ht.2]
    cases happ : applyOp M st2.ans st2.rngPos n st2.stack with
    | none => simpa [sameStacks] using h
    | some r =>
      obtain ⟨res, s', p'⟩ := r
      cases res with
      | ok v => simp [sameStacks]
      | error e => simp [sameStacks]

/-- The token loop of `eval` on an `ans`/`rand`-free sequence relates two
states with equal stacks: same outcome and same final stack. -/
theorem evalGo_indep (M : MathOracle) (e : List Token) : ∀ (st1 st2 : EvalSt),
    noAnsRand e = true → st1.stack = st2.stack →
    sameStacks (evalGo M e st1) (evalGo M e st2) := by
  induction e with
  | nil =>
    intro st1 st2 _ h
    simpa [evalGo, sameStacks] using h
  | cons t rest ih =>
    intro st1 st2 hn h
    rw [noAnsRand, List.all_cons, Bool.and_eq_true] at hn
    have hs := evalStep_indep M t st1 st2 hn.1 h
    simp only [evalGo]
    cases e1 : evalStep M t st1 with
    | ok st1' =>
      cases e2 : evalStep M t st2 with
      | ok st2' =>
        rw [e1, e2] at hs
        exact ih st1' st2' hn.2 hs
      | error er2 =>
        rw [e1, e2] at hs
        obtain ⟨e2', s2'⟩ := er2
        exact hs.elim
    | error er1 =>
      cases e2 : evalStep M t st2 with
      | ok st2' =>
        rw [e1, e2] at hs
        obtain ⟨e1', s1'⟩ := er1
        exact hs.elim
      | error er2 =>
        rw [e1, e2] at hs
        exact hs

/-- `eval` (token loop plus the singleton-stack `Warning` check) on an
`ans`/`rand`-free sequence relates two states with equal stacks. -/
theorem eval_indep (M : MathOracle) (e : List Token) (st1 st2 : EvalSt)
    (hn : noAnsRand e = true) (h : st1.stack = st2.stack) :
    sameStacks (eval M e st1) (eval M e st2) := by
  have hg := evalGo_indep M e st1 st2 hn h
  unfold eval
  cases e1 : evalGo M e st1 with
  | ok st1' =>
    cases e2 : evalGo M e st2 with
    | ok st2' =>
      rw [e1, e2] at hg
      have hss : st1'.stack = st2'.stack := hg
      have hlen : st1'.stack.length = st2'.stack.length := by rw [hss]
      show sameStacks
          (if st1'.stack.length ≠ 1 then .error (Err.warnErr, st1') else .ok st1')
          (if st2'.stack.length ≠ 1 then .error (Err.warnErr, st2') else .ok st2')
      by_cases hl : st1'.stack.length = 1
      · have hl2 : st2'.stack.length = 1 := by rw [← hlen]; exact hl
        rw [if_neg (fun hne => hne hl), if_neg (fun hne => hne hl2)]
        exact hss
      · have hl2 : ¬st2'.stack.length = 1 := by rw [← hlen]; exact hl
        rw [if_pos hl, if_pos hl2]
        exact ⟨rfl, hss⟩
    | error er2 =>
      rw [e1, e2] at hg
      obtain ⟨e2', s2'⟩ := er2
      exact hg.elim
  | error er1 =>
    cases e2 : evalGo M e st2 with
    | ok st2' =>
      rw [e1, e2] at hg
      obtain ⟨e1', s1'⟩ := er1
      exact hg.elim
    | error er2 =>
      rw [e1, e2] at hg
      exact hg

/-- Claim C9 as amended: for a postfix sequence that invokes neither the
`ans` pseudo-operator nor `rand`, the evaluation outcome is independent of
the register and of the random position, so re-evaluating the same
sequence with the same calculator instance against fresh empty stacks
yields identical results (same outcome, same error kind if any, same
resulting stack), whatever state the first run left in the instance. -/
theorem claim_C9_amended (M : MathOracle) (e : List Token)
    (hn : noAnsRand e = true) (a1 : ℚ) (p1 : ℕ) (a2 : ℚ) (p2 : ℕ) :
    sameStacks (eval M e ⟨[], a1, p1⟩) (eval M e ⟨[], a2, p2⟩) :=
  eval_indep M e ⟨[], a1, p1⟩ ⟨[], a2, p2⟩ hn rfl

/-- Claim C9 witness: the amended theorem applied to the `ans`/`rand`-free
sequence `2 3 *` across two different register/position states. -/
theorem claim_C9_witness :
    sameStacks
      (eval M0 [Token.literal 2, Token.literal 3, Token.operator "*"] ⟨[], 5, 7⟩)
      (eval M0 [Token.literal 2, Token.literal 3, Token.operator "*"] ⟨[], 0, 0⟩) :=
  claim_C9_amended M0 [Token.literal 2, Token.literal 3, Token.operator "*"]
    (by decide) 5 7 0 0

/-- Entries of the `OPS` table have precedence at most 4, and only
precedence-4 entries are right-associative. -/
theorem OPS_prec_bound {s : String} {o : OpSpec} (h : OPS s = some o) :
    o.prec ≤ 4 ∧ (o.assoc = Assoc.R → o.prec = 4) := by
  unfold OPS at h
  split_ifs at h <;> (injection h with h2; subst h2; decide)

/-- The `OPS` lookup of a stack token obeys the same bounds. -/
theorem opsOf_prec_bound {t : Token} {o : OpSpec} (h : opsOf t = some o) :
    o.prec ≤ 4 ∧ (o.assoc = Assoc.R → o.prec = 4) := by
  cases t with
  | literal q => exact Option.noConfusion h
  | constant v => exact OPS_prec_bound h
  | function v => exact OPS_prec_bound h
  | operator v => exact OPS_prec_bound h
  | lparen v => exact OPS_prec_bound h
  | rparen v => exact OPS_prec_bound h
  | separator v => exact OPS_prec_bound h

/-- The unguarded right-associative disjunct can never be true: the only
right-associative operator has the maximal precedence 4, so
`prec < top.prec` fails whenever the lookups succeed. -/
theorem sycondR_not_true {n : String} {op : OpSpec} {stack : List Token}
    (hO : OPS n = some op) : sycondR op stack ≠ .ok true := by
  intro h
  unfold sycondR at h
  by_cases hR : op.assoc = Assoc.R
  · rw [if_pos hR] at h
    cases stack with
    | nil => exact Except.noConfusion h
    | cons top rest =>
      have h' : (match opsOf top with
          | none => (Except.error Err.keyErr : Except Err Bool)
          | some topOp => Except.ok (decide (op.prec < topOp.prec))) = Except.ok true := h
      cases hOf : opsOf top with
      | none => rw [hOf] at h'; simp at h'
      | some topOp =>
        rw [hOf] at h'
        simp only [Except.ok.injEq, decide_eq_true_eq] at h'
        have h4 : op.prec = 4 := (OPS_prec_bound hO).2 hR
        have hle : topOp.prec ≤ 4 := (opsOf_prec_bound hOf).1
        omega
  · rw [if_neg hR] at h
    simp at h

/-- When the while condition of the `Operator` branch evaluates to true,
the top of the operator stack is an `Operator` token. -/
theorem sycond_true_top {n : String} {top : Token} {rest : List Token}
    (h : sycond n (top :: rest) = .ok true) : top.type = TokType.Operator := by
  by_contra hT
  unfold sycond at h
  cases hO : OPS n with
  | none => rw [hO] at h; simp at h
  | some op =>
    rw [hO] at h
    simp only [if_neg hT] at h
    exact sycondR_not_true hO h

/-- The while condition is never true on an empty operator stack. -/
theorem sycond_nil_not_true {n : String} (h : sycond n [] = .ok true) : False := by
  unfold sycond at h
  cases hO : OPS n with
  | none => rw [hO] at h; simp at h
  | some op =>
    rw [hO] at h
    exact sycondR_not_true hO h

/-- `popUntilLParen` moves only non-`LParen` stack tokens into the output
and returns a suffix of the stack. -/
theorem popUntil_spec : ∀ (stack output : List Token),
    (∀ t ∈ (popUntilLParen stack output).2,
        t ∈ output ∨ (t ∈ stack ∧ t.type ≠ TokType.LParen))
    ∧ (∀ t ∈ (popUntilLParen stack output).1, t ∈ stack) := by
  intro stack
  induction stack with
  | nil =>
    intro output
    constructor
    · intro t ht
      simp only [popUntilLParen] at ht
      exact .inl ht
    · intro t ht
      simp only [popUntilLParen, List.not_mem_nil] at ht
  | cons top rest ih =>
    intro output
    by_cases hT : top.type = TokType.LParen
    · constructor
      · intro t ht
        simp only [popUntilLParen, if_pos hT] at ht
        exact .inl ht
      · intro t ht
        simp only [popUntilLParen, if_pos hT] at ht
        exact ht
    · constructor
      · intro t ht
        simp only [popUntilLParen, if_neg hT] at ht
        rcases (ih (output ++ [top])).1 t ht with h1 | ⟨h2, h3⟩
        · rcases List.mem_append.mp h1 with ha | hb
          · exact .inl ha
          · have hb2 : t = top := by simpa using hb
            subst hb2
            exact .inr ⟨List.mem_cons_self _ _, hT⟩
        · exact .inr ⟨List.mem_cons_of_mem _ h2, h3⟩
      · intro t ht
        simp only [popUntilLParen, if_neg hT] at ht
        exact List.mem_cons_of_mem _ ((ih (output ++ [top])).2 t ht)

/-- The final drain moves only non-bracket stack tokens into the output. -/
theorem syDrain_out : ∀ (stack output out : List Token),
    syDrain stack output = .ok out →
    ∀ t ∈ out,
      t ∈ output ∨ (t ∈ stack ∧ t.type ≠ TokType.LParen ∧ t.type ≠ TokType.RParen) := by
  intro stack
  induction stack with
  | nil =>
    intro output out h t ht
    simp only [syDrain, Except.ok.injEq] at h
    subst h
    exact .inl ht
  | cons top rest ih =>
    intro output out h t ht
    simp only [syDrain] at h
    by_cases hP : top.type = TokType.LParen ∨ top.type = TokType.RParen
    · rw [if_pos hP] at h
      exact Except.noConfusion h
    · rw [if_neg hP] at h
      push_neg at hP
      rcases ih (output ++ [top]) out h t ht with h1 | ⟨h2, h3, h4⟩
      · rcases List.mem_append.mp h1 with ha | hb
        · exact .inl ha
        · have hb2 : t = top := by simpa using hb
          subst hb2
          exact .inr ⟨List.mem_cons_self _ _, hP.1, hP.2⟩
      · exact .inr ⟨List.mem_cons_of_mem _ h2, h3, h4⟩

/-- The `Operator`-branch pop loop moves only `Operator` tokens into the
output and returns a suffix of the stack. -/
theorem popOps_out {n : String} : ∀ (stack output stack' output' : List Token),
    popOps n stack output = .ok (stack', output') →
    (∀ t ∈ output', t ∈ output ∨ t.type = TokType.Operator)
    ∧ (∀ t ∈ stack', t ∈ stack) := by
  intro stack
  induction stack with
  | nil =>
    intro output stack' output' h
    simp only [popOps] at h
    cases hc : sycond n [] with
    | error e => rw [hc] at h; exact Except.noConfusion h
    | ok b =>
      rw [hc] at h
      simp only [Except.ok.injEq, Prod.mk.injEq] at h
      obtain ⟨h1, h2⟩ := h
      subst h1
      subst h2
      exact ⟨fun t ht => .inl ht, fun t ht => ht⟩
  | cons top rest ih =>
    intro output stack' output' h
    simp only [popOps] at h
    cases hc : sycond n (top :: rest) with
    | error e => rw [hc] at h; exact Except.noConfusion h
    | ok b =>
      rw [hc] at h
      cases b with
      | false =>
        simp only [Except.ok.injEq, Prod.mk.injEq] at h
        obtain ⟨h1, h2⟩ := h
        subst h1
        subst h2
        exact ⟨fun t ht => .inl ht, fun t ht => ht⟩
      | true =>
        have htop : top.type = TokType.Operator := sycond_true_top hc
        obtain ⟨ho, hs⟩ := ih (output ++ [top]) stack' output' h
        constructor
        · intro t ht
          rcases ho t ht with h1 | hop
          · rcases List.mem_append.mp h1 with ha | hb
            · exact .inl ha
            · have hb2 : t = top := by simpa using hb
              subst hb2
              exact .inr htop
          · exact .inr hop
        · intro t ht
          exact List.mem_cons_of_mem _ (hs t ht)

/-- A token kind allowed on the operator stack that is not a left bracket
is allowed in the output. -/
theorem outOk_of_stackOk {ty : TokType} (h : stackOkT ty) (hne : ty ≠ TokType.LParen) :
    outOkT ty := by
  unfold stackOkT at h
  unfold outOkT
  rcases h with h1 | h2 | h3
  · subst h1
    exact ⟨by decide, by decide, by decide⟩
  · subst h2
    exact ⟨by decide, by decide, by decide⟩
  · exact absurd h3 hne

/-- Invariant of the `shunting_yard` token loop: if output tokens so far
are bracket/separator-free and stack tokens are Operator/Function/LParen,
a normal return produces only bracket/separator-free output. -/
theorem syGo_out : ∀ (expr output stack out : List Token),
    (∀ t ∈ output, outOkT t.type) → (∀ t ∈ stack, stackOkT t.type) →
    syGo expr output stack = .ok out → ∀ t ∈ out, outOkT t.type := by
  intro expr
  induction expr with
  | nil =>
    intro output stack out hout hstk h t ht
    simp only [syGo] at h
    rcases syDrain_out stack output out h t ht with h1 | ⟨h2, h3, h4⟩
    · exact hout t h1
    · exact outOk_of_stackOk (hstk t h2) h3
  | cons tok rest ih =>
    intro output stack out hout hstk h
    cases tok with
    | literal q =>
      simp only [syGo] at h
      refine ih (output ++ [Token.literal q]) stack out ?_ hstk h
      intro t ht
      rcases List.mem_append.mp ht with h1 | h2
      · exact hout t h1
      · have h3 : t = Token.literal q := by simpa using h2
        subst h3
        show outOkT TokType.Literal
        exact ⟨by decide, by decide, by decide⟩
    | constant v =>
      simp only [syGo] at h
      refine ih (output ++ [Token.constant v]) stack out ?_ hstk h
      intro t ht
      rcases List.mem_append.mp ht with h1 | h2
      · exact hout t h1
      · have h3 : t = Token.constant v := by simpa using h2
        subst h3
        show outOkT TokType.Constant
        exact ⟨by decide, by decide, by decide⟩
    | function v =>
      simp only [syGo] at h
      refine ih output (Token.function v :: stack) out hout ?_ h
      intro t ht
      rcases List.mem_cons.mp ht with h1 | h2
      · subst h1
        exact .inr (.inl rfl)
      · exact hstk t h2
    | lparen v =>
      simp only [syGo] at h
      refine ih output (Token.lparen v :: stack) out hout ?_ h
      intro t ht
      rcases List.mem_cons.mp ht with h1 | h2
      · subst h1
        exact .inr (.inr rfl)
      · exact hstk t h2
    | operator name =>
      simp only [syGo] at h
      cases hp : popOps name stack output with
      | error e =>
        rw [hp] at h
        exact Except.noConfusion h
      | ok r =>
        obtain ⟨stack2, output2⟩ := r
        rw [hp] at h
        obtain ⟨ho, hs⟩ := popOps_out stack output stack2 output2 hp
        refine ih output2 (Token.operator name :: stack2) out ?_ ?_ h
        · intro t ht
          rcases ho t ht with h1 | h2
          · exact hout t h1
          · unfold outOkT
            rw [h2]
            exact ⟨by decide, by decide, by decide⟩
        · intro t ht
          rcases List.mem_cons.mp ht with h1 | h2
          · subst h1
            exact .inl rfl
          · exact hstk t (hs t h2)
    | separator v =>
      simp only [syGo] at h
      cases hp : popUntilLParen stack output with
      | mk st2 out2 =>
        rw [hp] at h
        cases st2 with
        | nil => exact Except.noConfusion h
        | cons top stk2 =>
          refine ih out2 (top :: stk2) out ?_ ?_ h
          · intro t ht
            rcases (popUntil_spec stack output).1 t (by rw [hp]; exact ht) with h1 | ⟨h2, h3⟩
            · exact hout t h1
            · exact outOk_of_stackOk (hstk t h2) h3
          · intro t ht
            exact hstk t ((popUntil_spec stack output).2 t (by rw [hp]; exact ht))
    | rparen v =>
      simp only [syGo] at h
      cases hp : popUntilLParen stack output with
      | mk st2 out2 =>
        rw [hp] at h
        cases st2 with
        | nil => exact Except.noConfusion h
        | cons top stk2 =>
          have hout2 : ∀ t ∈ out2, outOkT t.type := by
            intro t ht
            rcases (popUntil_spec stack output).1 t (by rw [hp]; exact ht) with h1 | ⟨h2, h3⟩
            · exact hout t h1
            · exact outOk_of_stackOk (hstk t h2) h3
          have hstk2 : ∀ t ∈ top :: stk2, stackOkT t.type := by
            intro t ht
            exact hstk t ((popUntil_spec stack output).2 t (by rw [hp]; exact ht))
          by_cases hT : top.type = TokType.LParen
          · simp only [if_pos hT] at h
            cases stk2 with
            | nil =>
              exact ih out2 [] out hout2 (fun t ht => absurd ht (List.not_mem_nil t)) h
            | cons f stk3 =>
              by_cases hF : f.type = TokType.Function
              · simp only [if_pos hF] at h
                refine ih (out2 ++ [f]) stk3 out ?_ ?_ h
                · intro t ht
                  rcases List.mem_append.mp ht with h1 | h2
                  · exact hout2 t h1
                  · have h3 : t = f := by simpa using h2
                    subst h3
                    unfold outOkT
                    rw [hF]
                    exact ⟨by decide, by decide, by decide⟩
                · intro t ht
                  exact hstk2 t (List.mem_cons_of_mem _ (List.mem_cons_of_mem _ ht))
              · simp only [if_neg hF] at h
                refine ih out2 (f :: stk3) out hout2 ?_ h
                intro t ht
                exact hstk2 t (List.mem_cons_of_mem _ ht)
          · simp only [if_neg hT] at h
            exact Except.noConfusion h

/-- Claim C10: whenever `shunting_yard` returns normally, every token of
the returned postfix sequence is a Literal, Constant, Operator or
Function token: `LParen`, `RParen` and `Separator` tokens never appear in
the output. -/
theorem claim_C10 (expr out : List Token) (h : shunting_yard expr = .ok out) :
    ∀ t ∈ out,
      t.type ≠ TokType.LParen ∧ t.type ≠ TokType.RParen ∧ t.type ≠ TokType.Separator := by
  intro t ht
  have hres := syGo_out expr [] [] out (fun t ht => absurd ht (List.not_mem_nil t))
    (fun t ht => absurd ht (List.not_mem_nil t)) h t ht
  unfold outOkT at hres
  exact hres

/-- Claim C10 witness: the singleton literal sequence passes through
`shunting_yard` unchanged and its one output token is bracket-free. -/
theorem claim_C10_witness :
    (Token.literal 1).type ≠ TokType.LParen ∧ (Token.literal 1).type ≠ TokType.RParen
    ∧ (Token.literal 1).type ≠ TokType.Separator :=
  claim_C10 [Token.literal 1] [Token.literal 1] rfl (Token.literal 1)
    (List.mem_singleton.mpr rfl)
